import Mathlib

/-!
Shallow embedding of `checkmbeditors.py`: a script that reads two
tab-separated PostgreSQL dump files (an `editor` table and an `edit`
table), counts applied edits (status code 2) per editor, and writes a
ranked CSV of the top 500 editors.

Lines of the two input files are modelled as `List String` (one string
per line, as produced by Python file iteration, so a line may carry a
trailing newline that the code strips with `rstrip("\n")`).  Python
dicts are modelled as insertion-ordered association lists, matching
Python's documented dict iteration order, which the ranking step
depends on for tie-breaking.  Python's unbounded `int` is `Int`;
`str.isdigit` is modelled on ASCII decimal digits.
-/

namespace MBTop

/-- `APPLIED_STATUS_CODE = 2` (MusicBrainz STATUS_APPLIED). -/
def APPLIED_STATUS_CODE : Int := 2

/-- Python `s.split("\t")`: split on every tab character; the empty
string splits to `[""]`, matching Python. -/
def splitTab : List Char → List (List Char)
  | [] => [[]]
  | c :: rest =>
    match splitTab rest with
    | [] => [[]]
    | f :: fs => if c = '\t' then [] :: f :: fs else (c :: f) :: fs

/-- Python `line.rstrip("\n")`: remove every trailing newline character. -/
def rstripNl (l : List Char) : List Char :=
  (l.reverse.dropWhile (fun c => c = '\n')).reverse

/-- Field access `parts[i]` (total; the in-bounds side conditions are
hypotheses of the theorems that use it). -/
def getField (parts : List (List Char)) (i : Nat) : String :=
  ⟨parts.getD i []⟩

/-- Python `int(octs, 8)` where `octs` is a run of decimal digits:
succeeds iff every digit is octal (`0`–`7`), giving the base-8 value. -/
def octVal? (ds : List Char) : Option Nat :=
  if ds.all (fun c => '0' ≤ c && c ≤ '7') then
    some (ds.foldl (fun a c => a * 8 + (c.toNat - 48)) 0)
  else none

/-- The digit branch of `unescape_pg`: `chr(int(octs, 8))` on success,
`"\\" + octs` when `int` raises (a digit `8` or `9` in the run; `chr`
itself cannot fail since the value is at most octal 777 = 511). -/
def emitOct (ds : List Char) : List Char :=
  match octVal? ds with
  | some v => [Char.ofNat v]
  | none => '\\' :: ds

/-- The `while i < L` loop of `unescape_pg`, as structural recursion on
the remaining characters.  The octal branch looks ahead up to two
characters past the escape, so the match is unrolled to that depth to
keep the recursion structural. -/
def decodeLoop : List Char → List Char
  | [] => []
  | ['\\'] => ['\\']
  | ['\\', nxt] =>
    if nxt = 'n' then ['\n']
    else if nxt = 'r' then ['\r']
    else if nxt = 't' then ['\t']
    else if nxt = '\\' then ['\\']
    else if nxt.isDigit then emitOct [nxt]
    else [nxt]
  | ['\\', nxt, d1] =>
    if nxt = 'n' then '\n' :: decodeLoop [d1]
    else if nxt = 'r' then '\r' :: decodeLoop [d1]
    else if nxt = 't' then '\t' :: decodeLoop [d1]
    else if nxt = '\\' then '\\' :: decodeLoop [d1]
    else if nxt.isDigit then
      if d1.isDigit then emitOct [nxt, d1]
      else emitOct [nxt] ++ decodeLoop [d1]
    else nxt :: decodeLoop [d1]
  | '\\' :: nxt :: d1 :: d2 :: rest =>
    if nxt = 'n' then '\n' :: decodeLoop (d1 :: d2 :: rest)
    else if nxt = 'r' then '\r' :: decodeLoop (d1 :: d2 :: rest)
    else if nxt = 't' then '\t' :: decodeLoop (d1 :: d2 :: rest)
    else if nxt = '\\' then '\\' :: decodeLoop (d1 :: d2 :: rest)
    else if nxt.isDigit then
      if d1.isDigit then
        if d2.isDigit then emitOct [nxt, d1, d2] ++ decodeLoop rest
        else emitOct [nxt, d1] ++ decodeLoop (d2 :: rest)
      else emitOct [nxt] ++ decodeLoop (d1 :: d2 :: rest)
    else nxt :: decodeLoop (d1 :: d2 :: rest)
  | c :: rest => c :: decodeLoop rest

/-- `unescape_pg(val)`: `None` (here `none`) exactly on the literal
two-character input `\N`; otherwise the input unchanged when it holds
no backslash (fast path), else the decoded string. -/
def unescape_pg (s : String) : Option String :=
  if s = "\\N" then none
  else if s.data.contains '\\' then some ⟨decodeLoop s.data⟩
  else some s

/-- Whitespace stripped by Python `int()` around the numeral. -/
def isPyWs (c : Char) : Bool :=
  c = ' ' || c = '\t' || c = '\n' || c = '\r' || c = '\x0b' || c = '\x0c'

/-- Strip leading and trailing whitespace. -/
def stripWs (l : List Char) : List Char :=
  ((l.dropWhile isPyWs).reverse.dropWhile isPyWs).reverse

/-- Numeric value of an ASCII decimal digit. -/
def digitVal (c : Char) : Nat := c.toNat - 48

/-- Continuation of a decimal numeral after its first digit: digits,
with single underscores allowed only between digits (Python `int`). -/
def bodyAux : Nat → List Char → Option Nat
  | acc, [] => some acc
  | acc, c :: rest =>
    if c.isDigit then bodyAux (acc * 10 + digitVal c) rest
    else if c = '_' then
      match rest with
      | d :: rest2 =>
        if d.isDigit then bodyAux (acc * 10 + digitVal d) rest2 else none
      | [] => none
    else none

/-- A decimal numeral: at least one digit, then `bodyAux`. -/
def digitsVal? : List Char → Option Nat
  | [] => none
  | c :: rest => if c.isDigit then bodyAux (digitVal c) rest else none

/-- Python `int(s)` in base 10 (ASCII digits): optional surrounding
whitespace, optional sign, then a decimal numeral. -/
def parseIntPy? (s : String) : Option Int :=
  match stripWs s.data with
  | '+' :: rest => (digitsVal? rest).map Int.ofNat
  | '-' :: rest => (digitsVal? rest).map (fun n => -(n : Int))
  | l => (digitsVal? l).map Int.ofNat

/-- The `eid_to_name` dict: insertion-ordered association list. -/
abbrev NameMap := List (Int × String)

/-- `eid_to_name[eid] = name`: update in place when the key exists
(Python dicts keep the key's original position), else append. -/
def setName : NameMap → Int → String → NameMap
  | [], k, v => [(k, v)]
  | (p, v0) :: rest, k, v =>
    if p = k then (p, v) :: rest else (p, v0) :: setName rest k v

/-- `eid_to_name.get(k)`. -/
def lookupName : NameMap → Int → Option String
  | [], _ => none
  | (p, v) :: rest, k => if p = k then some v else lookupName rest k

/-- The `counts` defaultdict: insertion-ordered association list whose
values are the counters. -/
abbrev CountMap := List (Int × Nat)

/-- `counts[k] += 1` on a `defaultdict(int)`: increment in place, or
create the key with value 1 at the end. -/
def bump : CountMap → Int → CountMap
  | [], k => [(k, 1)]
  | (p, v) :: rest, k =>
    if p = k then (p, v + 1) :: rest else (p, v) :: bump rest k

/-- Read a counter (0 when absent, as for `defaultdict(int)`). -/
def lookupCount : CountMap → Int → Nat
  | [], _ => 0
  | (p, v) :: rest, k => if p = k then v else lookupCount rest k

/-- The body of the `load_editors` loop after the no-op first-character
check: split, skip short lines, skip unparsable ids, store the decoded
name (`unescape_pg(parts[1]) or ""`). -/
def editorLineCore (m : NameMap) (line : String) : NameMap :=
  let parts := splitTab (rstripNl line.data)
  if parts.length < 2 then m
  else
    match parseIntPy? (getField parts 0) with
    | none => m
    | some eid =>
      let name :=
        match unescape_pg (getField parts 1) with
        | none => ""
        | some n => n
      setName m eid name

/-- One full iteration of the `load_editors` loop, including the dead
`if not line or line[0] in ("-", "C"): pass` check, whose body is
`pass` so both branches continue with the same code. -/
def processEditorLine (m : NameMap) (line : String) : NameMap :=
  if line.data = [] ∨ line.data.head? = some '-' ∨ line.data.head? = some 'C' then
    editorLineCore m line
  else
    editorLineCore m line

/-- `load_editors`: fold the per-line step over the file's lines. -/
def load_editors (lines : List String) : NameMap :=
  lines.foldl processEditorLine []

/-- `load_editors` with the dead first-character check deleted. -/
def load_editors_nocheck (lines : List String) : NameMap :=
  lines.foldl editorLineCore []

/-- One iteration of the `count_applied_edits` loop: split, skip short
lines, decode columns 1 and 3, skip nulls, and inside the `try`: parse
the status, and when it equals 2 parse the editor id and increment its
counter; any parse failure skips the line. -/
def processEditLine (counts : CountMap) (line : String) : CountMap :=
  let parts := splitTab (rstripNl line.data)
  if parts.length < 4 then counts
  else
    match unescape_pg (getField parts 1), unescape_pg (getField parts 3) with
    | some eidRaw, some statusRaw =>
      match parseIntPy? statusRaw with
      | none => counts
      | some st =>
        if st = APPLIED_STATUS_CODE then
          match parseIntPy? eidRaw with
          | none => counts
          | some eid => bump counts eid
        else counts
    | _, _ => counts

/-- `count_applied_edits`: fold the per-line step over the file's lines. -/
def count_applied_edits (lines : List String) : CountMap :=
  lines.foldl processEditLine []

/-- The f-string `f"(editor #\x7beid\x7d)"` used when an id has no name. -/
def placeholder (eid : Int) : String :=
  "(editor #" ++ toString eid ++ ")"

/-- One element of the `rows` comprehension in `main`:
`(eid, editors.get(eid, placeholder), cnt)`. -/
def rowOf (editors : NameMap) (p : Int × Nat) : Int × String × Nat :=
  (p.1, (lookupName editors p.1).getD (placeholder p.1), p.2)

/-- The `rows` list, built from `counts.items()` in insertion order. -/
def buildRows (counts : CountMap) (editors : NameMap) : List (Int × String × Nat) :=
  counts.map (rowOf editors)

/-- The comparison realised by `rows.sort(key=lambda x: x[2],
reverse=True)`: row `a` may precede row `b` iff `b`'s count is at most
`a`'s. -/
def rowLE (a b : Int × String × Nat) : Bool := b.2.2 ≤ a.2.2

/-- `rows.sort(key=lambda x: x[2], reverse=True)`: Python `list.sort`
is a stable sort, embedded as the stable `List.mergeSort`. -/
def sortRows (rows : List (Int × String × Nat)) : List (Int × String × Nat) :=
  rows.mergeSort rowLE

/-- `top = rows[:500]` after the sort. -/
def topRows (counts : CountMap) (editors : NameMap) : List (Int × String × Nat) :=
  (sortRows (buildRows counts editors)).take 500

/-- `(name or "").replace('"', '""')` on the character list. -/
def doubleQuotes : List Char → List Char
  | [] => []
  | c :: rest =>
    if c = '"' then '"' :: '"' :: doubleQuotes rest else c :: doubleQuotes rest

/-- `any(ch in safe for ch in [",", "\n", "\r", '"'])`. -/
def needsQuote (l : List Char) : Bool :=
  l.any (fun c => c = ',' || c = '\n' || c = '\r' || c = '"')

/-- The name field as emitted by `write_csv`: double the quotes, then
wrap in quotes iff the result holds a comma, newline, carriage return
or double quote. -/
def csvField (name : String) : String :=
  let safe := doubleQuotes name.data
  if needsQuote safe then ⟨'"' :: (safe ++ ['"'])⟩ else ⟨safe⟩

/-- One data line of the CSV: `f"\x7bi\x7d,\x7beid\x7d,\x7bsafe\x7d,\x7bcnt\x7d\n"`. -/
def csvLine (rank : Nat) (r : Int × String × Nat) : String :=
  toString rank ++ "," ++ toString r.1 ++ "," ++ csvField r.2.1 ++ ","
    ++ toString r.2.2 ++ "\n"

/-- The `enumerate(rows, start=1)` loop of `write_csv`. -/
def csvBody : Nat → List (Int × String × Nat) → String
  | _, [] => ""
  | i, r :: rs => csvLine i r ++ csvBody (i + 1) rs

/-- The fixed header line. -/
def csvHeader : String := "rank,editor_id,editor_name,applied_edit_count\n"

/-- `write_csv`: the header then one line per row, ranks from 1. -/
def write_csv (rows : List (Int × String × Nat)) : String :=
  csvHeader ++ csvBody 1 rows

/-- The pure core of `main`: load editors, count applied edits, rank,
serialize.  Takes the two files as line lists, returns the CSV text. -/
def pipeline (editorLines editLines : List String) : String :=
  write_csv (topRows (count_applied_edits editLines) (load_editors editorLines))

/-- Observable outcome of the `__main__` entry: exit code (if the
process exits early), lines printed to standard output, lines printed
to standard error, and whether `main` was entered. -/
structure CliResult where
  exitCode : Option Nat
  stdoutLines : List String
  stderrLines : List String
  ranMain : Bool
deriving DecidableEq

/-- The usage message of the `__main__` guard. -/
def usageMessage : String := "Usage: python mb_top_editors_overall.py <folder>"

/-- The `if __name__ == "__main__"` block: with fewer than 2 argv
entries, `print(...)` writes the usage message to standard output and
`sys.exit(1)` stops with code 1; otherwise `main` runs. -/
def cliDispatch (argv : List String) : CliResult :=
  if argv.length < 2 then ⟨some 1, [usageMessage], [], false⟩
  else ⟨none, [], [], true⟩

/-! ### Helper lemmas about the decoder -/

theorem decodeLoop_cons_ne (c : Char) (rest : List Char) (h : c ≠ '\\') :
    decodeLoop (c :: rest) = c :: decodeLoop rest := by
  cases rest with
  | nil => simp [decodeLoop, h]
  | cons r1 t1 =>
    cases t1 with
    | nil => simp [decodeLoop, h]
    | cons r2 t2 =>
      cases t2 with
      | nil => simp [decodeLoop, h]
      | cons r3 t3 => simp [decodeLoop, h]

theorem decodeLoop_id_of_no_bs (l : List Char) (h : '\\' ∉ l) :
    decodeLoop l = l := by
  induction l with
  | nil => rfl
  | cons c rest ih =>
    have hc : c ≠ '\\' := fun hc => h (hc ▸ List.mem_cons_self c rest)
    rw [decodeLoop_cons_ne c rest hc, ih (fun hm => h (List.mem_cons_of_mem c hm))]

theorem decodeLoop_esc_n (r : List Char) :
    decodeLoop ('\\' :: 'n' :: r) = '\n' :: decodeLoop r := by
  cases r with
  | nil => simp [decodeLoop]
  | cons r1 t1 =>
    cases t1 with
    | nil => simp [decodeLoop]
    | cons r2 t2 => simp [decodeLoop]

theorem decodeLoop_esc_r (r : List Char) :
    decodeLoop ('\\' :: 'r' :: r) = '\r' :: decodeLoop r := by
  cases r with
  | nil => simp [decodeLoop]
  | cons r1 t1 =>
    cases t1 with
    | nil => simp [decodeLoop]
    | cons r2 t2 => simp [decodeLoop]

theorem decodeLoop_esc_t (r : List Char) :
    decodeLoop ('\\' :: 't' :: r) = '\t' :: decodeLoop r := by
  cases r with
  | nil => simp [decodeLoop]
  | cons r1 t1 =>
    cases t1 with
    | nil => simp [decodeLoop]
    | cons r2 t2 => simp [decodeLoop]

theorem decodeLoop_esc_bs (r : List Char) :
    decodeLoop ('\\' :: '\\' :: r) = '\\' :: decodeLoop r := by
  cases r with
  | nil => simp [decodeLoop]
  | cons r1 t1 =>
    cases t1 with
    | nil => simp [decodeLoop]
    | cons r2 t2 => simp [decodeLoop]

theorem decodeLoop_esc_other (c : Char) (r : List Char) (hd : ¬ c.isDigit)
    (hn : c ≠ 'n') (hr : c ≠ 'r') (ht : c ≠ 't') (hb : c ≠ '\\') :
    decodeLoop ('\\' :: c :: r) = c :: decodeLoop r := by
  cases r with
  | nil => simp [decodeLoop, hn, hr, ht, hb, hd]
  | cons r1 t1 =>
    cases t1 with
    | nil => simp [decodeLoop, hn, hr, ht, hb, hd]
    | cons r2 t2 => simp [decodeLoop, hn, hr, ht, hb, hd]

theorem emitOct_eq (ds : List Char) :
    emitOct ds =
      if ds.all (fun c => '0' ≤ c && c ≤ '7')
      then [Char.ofNat (ds.foldl (fun a c => a * 8 + (c.toNat - 48)) 0)]
      else '\\' :: ds := by
  by_cases h : ds.all (fun c => '0' ≤ c && c ≤ '7') <;>
    simp [emitOct, octVal?, h]

theorem digit_ne_esc (c : Char) (hd : c.isDigit) :
    c ≠ 'n' ∧ c ≠ 'r' ∧ c ≠ 't' ∧ c ≠ '\\' := by
  refine ⟨?_, ?_, ?_, ?_⟩ <;> (intro h; subst h; revert hd; decide)

/-- C3, the universally quantified part, phrased on character lists:
a backslash followed by a maximal run `ds` of 1–3 decimal digits
decodes to the octal value of the run when every digit is octal, and
to the literal backslash plus the run otherwise; decoding then
continues on the remainder. -/
theorem decodeLoop_octal (ds rest : List Char) (hne : ds ≠ [])
    (hlen : ds.length ≤ 3) (hdig : ∀ c ∈ ds, c.isDigit)
    (hmax : ds.length = 3 ∨ ∀ c, rest.head? = some c → ¬ c.isDigit) :
    decodeLoop ('\\' :: (ds ++ rest)) = emitOct ds ++ decodeLoop rest := by
  match ds, hne with
  | [a], _ =>
    obtain ⟨hn, hr, ht, hb⟩ := digit_ne_esc a (hdig a (by simp))
    have ha : a.isDigit := hdig a (by simp)
    rcases hmax with h3 | hnd
    · simp at h3
    · cases rest with
      | nil => simp [decodeLoop, hn, hr, ht, hb, ha]
      | cons r1 t1 =>
        have hr1 : ¬ r1.isDigit := hnd r1 (by simp)
        cases t1 with
        | nil => simp [decodeLoop, hn, hr, ht, hb, ha, hr1]
        | cons r2 t2 => simp [decodeLoop, hn, hr, ht, hb, ha, hr1]
  | [a, b], _ =>
    obtain ⟨hn, hr, ht, hb⟩ := digit_ne_esc a (hdig a (by simp))
    have ha : a.isDigit := hdig a (by simp)
    have hbd : b.isDigit := hdig b (by simp)
    rcases hmax with h3 | hnd
    · simp at h3
    · cases rest with
      | nil => simp [decodeLoop, hn, hr, ht, hb, ha, hbd]
      | cons r1 t1 =>
        have hr1 : ¬ r1.isDigit := hnd r1 (by simp)
        simp [decodeLoop, hn, hr, ht, hb, ha, hbd, hr1]
  | [a, b, c], _ =>
    obtain ⟨hn, hr, ht, hb⟩ := digit_ne_esc a (hdig a (by simp))
    have ha : a.isDigit := hdig a (by simp)
    have hbd : b.isDigit := hdig b (by simp)
    have hcd : c.isDigit := hdig c (by simp)
    simp [decodeLoop, hn, hr, ht, hb, ha, hbd, hcd]
  | a :: b :: c :: d :: t, _ => simp at hlen

/-! ### Claim theorems for the decoder -/

/-- C3: a backslash followed by a run of 1–3 consecutive decimal digits
(maximal: either 3 digits long or not followed by a further digit)
decodes to the single character whose code point is the octal value of
the run; when the run is not a valid octal numeral (it has a digit
above `7`) the literal backslash and the unchanged run are emitted
instead.  In particular decoding `\101` yields `"A"`. -/
theorem C3_octal_escape :
    (∀ ds rest : List Char, ds ≠ [] → ds.length ≤ 3 → (∀ c ∈ ds, c.isDigit) →
      (ds.length = 3 ∨ ∀ c, rest.head? = some c → ¬ c.isDigit) →
      decodeLoop ('\\' :: (ds ++ rest)) =
        (if ds.all (fun c => '0' ≤ c && c ≤ '7')
         then [Char.ofNat (ds.foldl (fun a c => a * 8 + (c.toNat - 48)) 0)]
         else '\\' :: ds) ++ decodeLoop rest) ∧
    unescape_pg "\\101" = some "A" := by
  constructor
  · intro ds rest hne hlen hdig hmax
    rw [decodeLoop_octal ds rest hne hlen hdig hmax, emitOct_eq]
  · decide

/-- Witness for C3 at the concrete run `101` with empty remainder. -/
theorem C3_octal_escape_witness :
    decodeLoop ('\\' :: (['1', '0', '1'] ++ [])) =
      (if (['1', '0', '1']).all (fun c => '0' ≤ c && c ≤ '7')
       then [Char.ofNat ((['1', '0', '1']).foldl (fun a c => a * 8 + (c.toNat - 48)) 0)]
       else '\\' :: ['1', '0', '1']) ++ decodeLoop [] :=
  C3_octal_escape.1 ['1', '0', '1'] [] (by decide) (by decide) (by decide)
    (Or.inl (by decide))

/-- C4: `unescape_pg` returns the null marker exactly on the
two-character input `\N`; every other input decodes left to right with
`\n`, `\r`, `\t`, `\\` as control escapes, any other escaped non-digit
character kept without its backslash, a trailing lone backslash kept
literally, non-backslash characters copied unchanged, and backslash-free
inputs returned unchanged. -/
theorem C4_decoder_contract :
    (∀ s : String, unescape_pg s = none ↔ s = "\\N") ∧
    (∀ s : String, s ≠ "\\N" → unescape_pg s = some ⟨decodeLoop s.data⟩) ∧
    (∀ r, decodeLoop ('\\' :: 'n' :: r) = '\n' :: decodeLoop r) ∧
    (∀ r, decodeLoop ('\\' :: 'r' :: r) = '\r' :: decodeLoop r) ∧
    (∀ r, decodeLoop ('\\' :: 't' :: r) = '\t' :: decodeLoop r) ∧
    (∀ r, decodeLoop ('\\' :: '\\' :: r) = '\\' :: decodeLoop r) ∧
    (∀ (c : Char) (r : List Char),
      ¬ c.isDigit → c ≠ 'n' → c ≠ 'r' → c ≠ 't' → c ≠ '\\' →
      decodeLoop ('\\' :: c :: r) = c :: decodeLoop r) ∧
    decodeLoop ['\\'] = ['\\'] ∧
    (∀ (c : Char) (r : List Char), c ≠ '\\' →
      decodeLoop (c :: r) = c :: decodeLoop r) ∧
    (∀ s : String, '\\' ∉ s.data → unescape_pg s = some s) := by
  refine ⟨?_, ?_, decodeLoop_esc_n, decodeLoop_esc_r, decodeLoop_esc_t,
    decodeLoop_esc_bs,
    (fun c r hd hn hr ht hb => decodeLoop_esc_other c r hd hn hr ht hb), rfl,
    (fun c r h => decodeLoop_cons_ne c r h), ?_⟩
  · intro s
    constructor
    · intro h
      by_cases hs : s = "\\N"
      · exact hs
      · by_cases hm : '\\' ∈ s.data <;> simp [unescape_pg, hs, hm] at h
    · intro h; subst h; rfl
  · intro s hs
    by_cases hm : '\\' ∈ s.data
    · simp [unescape_pg, hs, hm]
    · rw [decodeLoop_id_of_no_bs s.data hm]
      simp [unescape_pg, hs, hm]
  · intro s h
    have hs : s ≠ "\\N" := by
      intro hEq; subst hEq; exact h (by decide)
    simp [unescape_pg, hs, h]

/-- Witness for C4: the null marker, an escaped other character, and a
backslash-free identity input. -/
theorem C4_decoder_contract_witness :
    unescape_pg "\\N" = none ∧
    decodeLoop ('\\' :: 'x' :: []) = 'x' :: decodeLoop [] ∧
    unescape_pg "abc" = some "abc" :=
  ⟨(C4_decoder_contract.1 "\\N").mpr rfl,
   C4_decoder_contract.2.2.2.2.2.2.1 'x' [] (by decide) (by decide) (by decide)
     (by decide) (by decide),
   C4_decoder_contract.2.2.2.2.2.2.2.2.2 "abc" (by decide)⟩

/-! ### Helper lemmas about the two maps -/

theorem lookupCount_bump (m : CountMap) (k : Int) :
    lookupCount (bump m k) k = lookupCount m k + 1 := by
  induction m with
  | nil => simp [bump, lookupCount]
  | cons p rest ih =>
    by_cases h : p.1 = k <;> simp [bump, lookupCount, h, ih]

theorem lookupCount_bump_ne (m : CountMap) (k q : Int) (h : q ≠ k) :
    lookupCount (bump m k) q = lookupCount m q := by
  induction m with
  | nil => simp [bump, lookupCount, Ne.symm h]
  | cons p rest ih =>
    by_cases hp : p.1 = k
    · simp [bump, lookupCount, hp, Ne.symm h]
    · by_cases hq : p.1 = q <;> simp [bump, lookupCount, hp, hq, h, ih]

theorem lookupName_setName (m : NameMap) (k : Int) (v : String) :
    lookupName (setName m k v) k = some v := by
  induction m with
  | nil => simp [setName, lookupName]
  | cons p rest ih =>
    by_cases h : p.1 = k <;> simp [setName, lookupName, h, ih]

theorem lookupName_setName_ne (m : NameMap) (k q : Int) (v : String) (h : q ≠ k) :
    lookupName (setName m k v) q = lookupName m q := by
  induction m with
  | nil => simp [setName, lookupName, Ne.symm h]
  | cons p rest ih =>
    by_cases hp : p.1 = k
    · simp [setName, lookupName, hp, Ne.symm h]
    · by_cases hq : p.1 = q <;> simp [setName, lookupName, hp, hq, h, ih]

/-- The dead first-character check does not change the per-line step:
both branches of the `if` run the same continuation. -/
theorem processEditorLine_eq_core (m : NameMap) (line : String) :
    processEditorLine m line = editorLineCore m line := by
  unfold processEditorLine
  exact ite_self _

/-- A well-formed editor line stores its decoded name. -/
theorem editorLineCore_store (m : NameMap) (line : String) (eid : Int) (n : String)
    (hlen : 2 ≤ (splitTab (rstripNl line.data)).length)
    (hid : parseIntPy? (getField (splitTab (rstripNl line.data)) 0) = some eid)
    (hname : unescape_pg (getField (splitTab (rstripNl line.data)) 1) = some n) :
    editorLineCore m line = setName m eid n := by
  have hnl : ¬ (splitTab (rstripNl line.data)).length < 2 := by omega
  simp [editorLineCore, hnl, hid, hname]

/-- An editor line whose name field decodes to null stores the empty
string. -/
theorem editorLineCore_store_null (m : NameMap) (line : String) (eid : Int)
    (hlen : 2 ≤ (splitTab (rstripNl line.data)).length)
    (hid : parseIntPy? (getField (splitTab (rstripNl line.data)) 0) = some eid)
    (hname : unescape_pg (getField (splitTab (rstripNl line.data)) 1) = none) :
    editorLineCore m line = setName m eid "" := by
  have hnl : ¬ (splitTab (rstripNl line.data)).length < 2 := by omega
  simp [editorLineCore, hnl, hid, hname]

/-- C2: a line of the edit file increments exactly the counter of its
decoded editor id by exactly 1 when it has at least 4 tab fields,
columns 1 and 3 decode to non-null strings, both parse as integers and
the status integer is 2; under every other condition the count mapping
is left unchanged (the per-line step is total, so no error is raised). -/
theorem C2_aggregator_line (counts : CountMap) (line : String) :
    (∀ eidRaw statusRaw eid,
      4 ≤ (splitTab (rstripNl line.data)).length →
      unescape_pg (getField (splitTab (rstripNl line.data)) 1) = some eidRaw →
      unescape_pg (getField (splitTab (rstripNl line.data)) 3) = some statusRaw →
      parseIntPy? eidRaw = some eid →
      parseIntPy? statusRaw = some 2 →
      lookupCount (processEditLine counts line) eid = lookupCount counts eid + 1 ∧
      ∀ k, k ≠ eid →
        lookupCount (processEditLine counts line) k = lookupCount counts k) ∧
    ((¬ ∃ eidRaw statusRaw eid,
        4 ≤ (splitTab (rstripNl line.data)).length ∧
        unescape_pg (getField (splitTab (rstripNl line.data)) 1) = some eidRaw ∧
        unescape_pg (getField (splitTab (rstripNl line.data)) 3) = some statusRaw ∧
        parseIntPy? eidRaw = some eid ∧
        parseIntPy? statusRaw = some 2) →
      processEditLine counts line = counts) := by
  constructor
  · intro eidRaw statusRaw eid hlen hE hS hPe hPs
    have hnl : ¬ (splitTab (rstripNl line.data)).length < 4 := by omega
    simp only [processEditLine, hnl, if_false, hE, hS, hPs, hPe,
      APPLIED_STATUS_CODE, if_true, reduceIte]
    exact ⟨lookupCount_bump counts eid,
      fun k hk => lookupCount_bump_ne counts eid k hk⟩
  · intro hno
    by_cases hlen : (splitTab (rstripNl line.data)).length < 4
    · simp [processEditLine, hlen]
    · cases hE : unescape_pg (getField (splitTab (rstripNl line.data)) 1) with
      | none => simp [processEditLine, hlen, hE]
      | some eidRaw =>
        cases hS : unescape_pg (getField (splitTab (rstripNl line.data)) 3) with
        | none => simp [processEditLine, hlen, hE, hS]
        | some statusRaw =>
          cases hPs : parseIntPy? statusRaw with
          | none => simp [processEditLine, hlen, hE, hS, hPs]
          | some st =>
            by_cases hst : st = 2
            · subst hst
              cases hPe : parseIntPy? eidRaw with
              | none => simp [processEditLine, hlen, hE, hS, hPs, hPe, APPLIED_STATUS_CODE]
              | some eid =>
                exact absurd ⟨eidRaw, statusRaw, eid, by omega, hE, hS, hPe, hPs⟩ hno
            · simp [processEditLine, hlen, hE, hS, hPs, APPLIED_STATUS_CODE, hst]

/-- Witness for C2: the line `10⟨tab⟩7⟨tab⟩x⟨tab⟩2` increments editor 7
and leaves editor 5 untouched. -/
theorem C2_aggregator_line_witness :
    lookupCount (processEditLine [] "10\t7\tx\t2") 7 = lookupCount [] 7 + 1 ∧
    lookupCount (processEditLine [] "10\t7\tx\t2") 5 = lookupCount [] 5 :=
  ⟨((C2_aggregator_line [] "10\t7\tx\t2").1 "7" "2" 7 (by decide) (by decide)
      (by decide) (by decide) (by decide)).1,
   ((C2_aggregator_line [] "10\t7\tx\t2").1 "7" "2" 7 (by decide) (by decide)
      (by decide) (by decide) (by decide)).2 5 (by decide)⟩

/-- C5: an editor line with fewer than 2 tab fields or an unparsable id
field leaves the mapping unchanged; otherwise it stores id → decoded
name (null decoding to the empty string) and touches no other key; and
the last line for an id wins. -/
theorem C5_loader (m : NameMap) (line : String) :
    ((splitTab (rstripNl line.data)).length < 2 → processEditorLine m line = m) ∧
    (parseIntPy? (getField (splitTab (rstripNl line.data)) 0) = none →
      processEditorLine m line = m) ∧
    (∀ eid n, 2 ≤ (splitTab (rstripNl line.data)).length →
      parseIntPy? (getField (splitTab (rstripNl line.data)) 0) = some eid →
      unescape_pg (getField (splitTab (rstripNl line.data)) 1) = some n →
      lookupName (processEditorLine m line) eid = some n ∧
      ∀ k, k ≠ eid →
        lookupName (processEditorLine m line) k = lookupName m k) ∧
    (∀ eid, 2 ≤ (splitTab (rstripNl line.data)).length →
      parseIntPy? (getField (splitTab (rstripNl line.data)) 0) = some eid →
      unescape_pg (getField (splitTab (rstripNl line.data)) 1) = none →
      lookupName (processEditorLine m line) eid = some "" ∧
      ∀ k, k ≠ eid →
        lookupName (processEditorLine m line) k = lookupName m k) ∧
    (∀ (ls : List String) (eid : Int) (n : String),
      2 ≤ (splitTab (rstripNl line.data)).length →
      parseIntPy? (getField (splitTab (rstripNl line.data)) 0) = some eid →
      unescape_pg (getField (splitTab (rstripNl line.data)) 1) = some n →
      lookupName (load_editors (ls ++ [line])) eid = some n) := by
  refine ⟨?_, ?_, ?_, ?_, ?_⟩
  · intro hlen
    rw [processEditorLine_eq_core]
    simp [editorLineCore, hlen]
  · intro hid
    rw [processEditorLine_eq_core]
    by_cases hlen : (splitTab (rstripNl line.data)).length < 2 <;>
      simp [editorLineCore, hlen, hid]
  · intro eid n hlen hid hname
    rw [processEditorLine_eq_core, editorLineCore_store m line eid n hlen hid hname]
    exact ⟨lookupName_setName m eid n,
      fun k hk => lookupName_setName_ne m eid k n hk⟩
  · intro eid hlen hid hname
    rw [processEditorLine_eq_core, editorLineCore_store_null m line eid hlen hid hname]
    exact ⟨lookupName_setName m eid "",
      fun k hk => lookupName_setName_ne m eid k "" hk⟩
  · intro ls eid n hlen hid hname
    have happ : load_editors (ls ++ [line]) =
        processEditorLine (load_editors ls) line := by
      simp [load_editors, List.foldl_append]
    rw [happ, processEditorLine_eq_core,
      editorLineCore_store (load_editors ls) line eid n hlen hid hname]
    exact lookupName_setName (load_editors ls) eid n

/-- Witness for C5: a duplicate id keeps the last name, both per line
and across a two-line file. -/
theorem C5_loader_witness :
    lookupName (processEditorLine [(3, "Alice")] "3\tBob") 3 = some "Bob" ∧
    lookupName (load_editors (["3\tAlice"] ++ ["3\tBob"])) 3 = some "Bob" :=
  ⟨((C5_loader [(3, "Alice")] "3\tBob").2.2.1 3 "Bob" (by decide) (by decide)
      (by decide)).1,
   (C5_loader [(3, "Alice")] "3\tBob").2.2.2.2 ["3\tAlice"] 3 "Bob" (by decide)
      (by decide) (by decide)⟩

/-! ### Helper lemmas for the CSV writer -/

theorem mem_doubleQuotes (l : List Char) (c : Char) :
    c ∈ doubleQuotes l ↔ c ∈ l := by
  induction l with
  | nil => simp [doubleQuotes]
  | cons a rest ih =>
    by_cases ha : a = '"'
    · subst ha
      simp [doubleQuotes, ih]
    · simp [doubleQuotes, ha, ih]

theorem doubleQuotes_id (l : List Char) (h : '"' ∉ l) : doubleQuotes l = l := by
  induction l with
  | nil => rfl
  | cons a rest ih =>
    have ha : a ≠ '"' := fun hEq => h (by simp [hEq])
    simp [doubleQuotes, ha, ih (fun hm => h (List.mem_cons_of_mem a hm))]

theorem needsQuote_iff (l : List Char) :
    needsQuote l = true ↔ ∃ c ∈ l, c = ',' ∨ c = '\n' ∨ c = '\r' ∨ c = '"' := by
  simp only [needsQuote, List.any_eq_true, Bool.or_eq_true, decide_eq_true_eq,
    or_assoc]

/-- C6: the CSV output is the exact header line then one line
`rank,editor_id,name,count` per row with ranks counted from 1; a name
is wrapped in double quotes with internal quotes doubled iff it holds
a comma, double quote, newline or carriage return, and is emitted
completely unchanged otherwise. -/
theorem C6_csv_writer :
    (∀ rows, write_csv rows =
      "rank,editor_id,editor_name,applied_edit_count\n" ++ csvBody 1 rows) ∧
    (∀ i, csvBody i [] = "") ∧
    (∀ (i : Nat) (r : Int × String × Nat) rs, csvBody i (r :: rs) =
      toString i ++ "," ++ toString r.1 ++ "," ++ csvField r.2.1 ++ ","
        ++ toString r.2.2 ++ "\n" ++ csvBody (i + 1) rs) ∧
    (∀ name : String,
      (∃ c ∈ name.data, c = ',' ∨ c = '"' ∨ c = '\n' ∨ c = '\r') →
      csvField name = ⟨'"' :: (doubleQuotes name.data ++ ['"'])⟩) ∧
    (∀ name : String,
      (∀ c ∈ name.data, c ≠ ',' ∧ c ≠ '"' ∧ c ≠ '\n' ∧ c ≠ '\r') →
      csvField name = name) := by
  refine ⟨fun rows => rfl, fun i => rfl, fun i r rs => rfl, ?_, ?_⟩
  · intro name hex
    have hq : needsQuote (doubleQuotes name.data) = true := by
      rw [needsQuote_iff]
      obtain ⟨c, hc, hor⟩ := hex
      exact ⟨c, (mem_doubleQuotes name.data c).mpr hc, by tauto⟩
    simp [csvField, hq]
  · intro name hall
    have hnq : '"' ∉ name.data := fun hm => ((hall _ hm).2.1) rfl
    have hid : doubleQuotes name.data = name.data := doubleQuotes_id _ hnq
    have hq : ¬ needsQuote name.data = true := by
      rw [needsQuote_iff]
      rintro ⟨c, hc, hor⟩
      obtain ⟨h1, h2, h3, h4⟩ := hall c hc
      tauto
    simp [csvField, hid, hq]

/-- Witness for C6: a name with a comma gets quoted, a plain name is
emitted unchanged. -/
theorem C6_csv_writer_witness :
    csvField "Doe, Jane" = ⟨'"' :: (doubleQuotes "Doe, Jane".data ++ ['"'])⟩ ∧
    csvField "Bob" = "Bob" :=
  ⟨C6_csv_writer.2.2.2.1 "Doe, Jane" ⟨',', by decide, by decide⟩,
   C6_csv_writer.2.2.2.2 "Bob" (by decide)⟩

/-! ### Helper lemmas for the positivity invariant -/

theorem processEditLine_cases (counts : CountMap) (line : String) :
    processEditLine counts line = counts ∨
    ∃ k, processEditLine counts line = bump counts k := by
  by_cases hlen : (splitTab (rstripNl line.data)).length < 4
  · exact Or.inl (by simp [processEditLine, hlen])
  · cases hE : unescape_pg (getField (splitTab (rstripNl line.data)) 1) with
    | none => exact Or.inl (by simp [processEditLine, hlen, hE])
    | some eidRaw =>
      cases hS : unescape_pg (getField (splitTab (rstripNl line.data)) 3) with
      | none => exact Or.inl (by simp [processEditLine, hlen, hE, hS])
      | some statusRaw =>
        cases hPs : parseIntPy? statusRaw with
        | none => exact Or.inl (by simp [processEditLine, hlen, hE, hS, hPs])
        | some st =>
          by_cases hst : st = APPLIED_STATUS_CODE
          · cases hPe : parseIntPy? eidRaw with
            | none =>
              exact Or.inl (by simp [processEditLine, hlen, hE, hS, hPs, hst, hPe])
            | some eid =>
              exact Or.inr ⟨eid, by simp [processEditLine, hlen, hE, hS, hPs, hst, hPe]⟩
          · exact Or.inl (by simp [processEditLine, hlen, hE, hS, hPs, hst])

theorem bump_pos (k : Int) :
    ∀ m : CountMap, (∀ p ∈ m, 1 ≤ p.2) → ∀ p ∈ bump m k, 1 ≤ p.2 := by
  intro m
  induction m with
  | nil =>
    intro _ p hp
    simp [bump] at hp
    simp [hp]
  | cons q rest ih =>
    intro h p hp
    by_cases hq : q.1 = k
    · simp [bump, hq] at hp
      rcases hp with hp | hp
      · simp [hp]
      · exact h p (List.mem_cons_of_mem q hp)
    · simp [bump, hq] at hp
      rcases hp with hp | hp
      · exact h p (by simp [hp])
      · exact ih (fun r hr => h r (List.mem_cons_of_mem q hr)) p hp

/-- C7: every key of the aggregated count mapping has a count of at
least 1, and consequently every row of the ranked output has count at
least 1. -/
theorem C7_counts_positive (lines : List String) (editors : NameMap) :
    (∀ p ∈ count_applied_edits lines, 1 ≤ p.2) ∧
    (∀ r ∈ topRows (count_applied_edits lines) editors, 1 ≤ r.2.2) := by
  have key : ∀ (ls : List String) (m : CountMap), (∀ p ∈ m, 1 ≤ p.2) →
      ∀ p ∈ ls.foldl processEditLine m, 1 ≤ p.2 := by
    intro ls
    induction ls with
    | nil =>
      intro m h
      simpa using h
    | cons l rest ih =>
      intro m h
      rw [List.foldl_cons]
      apply ih
      rcases processEditLine_cases m l with hc | ⟨k, hc⟩
      · rw [hc]; exact h
      · rw [hc]; exact bump_pos k m h
  have h1 : ∀ p ∈ count_applied_edits lines, 1 ≤ p.2 :=
    key lines [] (by simp)
  refine ⟨h1, ?_⟩
  intro r hr
  rw [topRows] at hr
  have hr2 : r ∈ sortRows (buildRows (count_applied_edits lines) editors) :=
    List.mem_of_mem_take hr
  rw [sortRows] at hr2
  have hr3 : r ∈ buildRows (count_applied_edits lines) editors :=
    List.mem_mergeSort.mp hr2
  obtain ⟨p, hp, hpr⟩ := List.mem_map.mp hr3
  have hpos := h1 p hp
  rw [← hpr]
  simpa [rowOf] using hpos

/-- Witness for C7: a one-line edit file puts editor 7 in the mapping
with count 1. -/
theorem C7_counts_positive_witness :
    ((7 : Int), (1 : Nat)) ∈ count_applied_edits ["a\t7\tx\t2"] ∧
    1 ≤ ((7 : Int), (1 : Nat)).2 :=
  ⟨by decide, (C7_counts_positive ["a\t7\tx\t2"] []).1 (7, 1) (by decide)⟩

/-- C8: the core pipeline (load, aggregate, rank, serialize) is a pure
function of the two input line sequences, so two runs on equal inputs
produce byte-identical CSV output. -/
theorem C8_deterministic (a b a2 b2 : List String) (h1 : a = a2) (h2 : b = b2) :
    pipeline a b = pipeline a2 b2 := by
  rw [h1, h2]

/-- Witness for C8 at a concrete pair of inputs. -/
theorem C8_deterministic_witness :
    pipeline ["1\tA"] ["e\t1\tx\t2"] = pipeline ["1\tA"] ["e\t1\tx\t2"] :=
  C8_deterministic ["1\tA"] ["e\t1\tx\t2"] ["1\tA"] ["e\t1\tx\t2"] rfl rfl

/-- C9, counterexample: with no folder argument the usage message goes
to standard output, not to the error stream, so the claim as stated is
false at `argv = ["prog"]`. -/
theorem C9_usage_counterexample :
    ¬ ((cliDispatch ["prog"]).exitCode = some 1 ∧
       usageMessage ∈ (cliDispatch ["prog"]).stderrLines ∧
       usageMessage ∉ (cliDispatch ["prog"]).stdoutLines) := by
  decide

/-- C9, amended: with no positional folder argument the program exits
with code 1, writes the usage message to standard output (the error
stream stays empty), and performs no other work. -/
theorem C9_usage_to_stdout (argv : List String) (h : argv.length < 2) :
    cliDispatch argv = ⟨some 1, [usageMessage], [], false⟩ := by
  simp [cliDispatch, h]

/-- Witness for the amended C9. -/
theorem C9_usage_to_stdout_witness :
    cliDispatch ["prog"] = ⟨some 1, [usageMessage], [], false⟩ :=
  C9_usage_to_stdout ["prog"] (by decide)

/-- C10: the loader's first-character check has a `pass` body, so the
per-line step and the whole loader are extensionally equal to the
check-deleted versions; a line starting with `-` still enters the
mapping, and a line starting with `C` is dropped only because its id
field fails integer parsing. -/
theorem C10_dead_first_char_check :
    (∀ (m : NameMap) (line : String),
      processEditorLine m line = editorLineCore m line) ∧
    (∀ lines : List String, load_editors lines = load_editors_nocheck lines) ∧
    load_editors ["-1\tX"] = [(-1, "X")] ∧
    load_editors ["Cabc\tY"] = [] := by
  have hfold : ∀ (ls : List String) (m : NameMap),
      ls.foldl processEditorLine m = ls.foldl editorLineCore m := by
    intro ls
    induction ls with
    | nil => intro m; rfl
    | cons l rest ih =>
      intro m
      rw [List.foldl_cons, List.foldl_cons, processEditorLine_eq_core, ih]
  exact ⟨processEditorLine_eq_core, fun lines => hfold lines [], by decide, by decide⟩

/-! ### Helper lemmas for the ranker -/

theorem rowLE_trans (a b c : Int × String × Nat) :
    rowLE a b = true → rowLE b c = true → rowLE a c = true := by
  simp only [rowLE, decide_eq_true_eq]
  omega

theorem rowLE_total (a b : Int × String × Nat) :
    (rowLE a b || rowLE b a) = true := by
  simp only [rowLE, Bool.or_eq_true, decide_eq_true_eq]
  omega

/-- C1: the ranked rows are a permutation of one row per count-mapping
entry, sorted by count descending, with ties between equal counts
keeping the relative order of the count mapping (its insertion order),
truncated to the first 500; a row's name is the looked-up name or the
`(editor #<id>)` placeholder; on the spec's example the order is ids
2, 3, 1, 4 with ranks 1..4 and the placeholder for id 4. -/
theorem C1_ranker (counts : CountMap) (editors : NameMap) :
    (sortRows (buildRows counts editors)).Perm (buildRows counts editors) ∧
    (topRows counts editors).length = min 500 counts.length ∧
    List.Pairwise (fun a b : Int × String × Nat => b.2.2 ≤ a.2.2)
      (sortRows (buildRows counts editors)) ∧
    (∀ i j : Fin counts.length, (i : Nat) < j →
      (counts.get i).2 = (counts.get j).2 →
      [rowOf editors (counts.get i), rowOf editors (counts.get j)].Sublist
        (sortRows (buildRows counts editors))) ∧
    (∀ r ∈ topRows counts editors,
      r.2.1 = (lookupName editors r.1).getD (placeholder r.1)) ∧
    topRows [(1, 5), (2, 9), (3, 9), (4, 1)] [(1, "A"), (2, "B"), (3, "C")] =
      [(2, "B", 9), (3, "C", 9), (1, "A", 5), (4, "(editor #4)", 1)] ∧
    write_csv
        (topRows [(1, 5), (2, 9), (3, 9), (4, 1)] [(1, "A"), (2, "B"), (3, "C")]) =
      "rank,editor_id,editor_name,applied_edit_count\n1,2,B,9\n2,3,C,9\n3,1,A,5\n4,4,(editor #4),1\n" := by
  have hex : topRows [(1, 5), (2, 9), (3, 9), (4, 1)] [(1, "A"), (2, "B"), (3, "C")] =
      [(2, "B", 9), (3, "C", 9), (1, "A", 5), (4, "(editor #4)", 1)] := by
    simp [topRows, sortRows, List.mergeSort, buildRows, rowOf, rowLE, lookupName,
      placeholder]
    decide
  refine ⟨List.mergeSort_perm _ _, ?_, ?_, ?_, ?_, hex, ?_⟩
  · simp [topRows, sortRows, buildRows, List.length_take, List.length_mergeSort,
      List.length_map]
  · have hs := List.sorted_mergeSort rowLE_trans rowLE_total (buildRows counts editors)
    exact hs.imp (fun h => by simpa [rowLE] using h)
  · intro i j hij heq
    have hp : List.Pairwise (fun a b : Fin counts.length => a < b) [i, j] :=
      List.pairwise_pair.mpr hij
    have hsub1 := @List.map_getElem_sublist _ counts [i, j] hp
    have hsub2 : [counts.get i, counts.get j].Sublist counts := by
      simpa using hsub1
    have hsub3 : [rowOf editors (counts.get i),
        rowOf editors (counts.get j)].Sublist (buildRows counts editors) := by
      have hm := hsub2.map (rowOf editors)
      simpa [buildRows] using hm
    have heq2 : counts[(i : Nat)].2 = counts[(j : Nat)].2 := by
      simpa [List.get_eq_getElem] using heq
    have hle : rowLE (rowOf editors (counts.get i))
        (rowOf editors (counts.get j)) = true := by
      simp [rowLE, rowOf, heq2]
    exact List.pair_sublist_mergeSort rowLE_trans rowLE_total hle hsub3
  · intro r hr
    rw [topRows] at hr
    have hr2 := List.mem_of_mem_take hr
    rw [sortRows] at hr2
    have hr3 := List.mem_mergeSort.mp hr2
    obtain ⟨p, hp, hpr⟩ := List.mem_map.mp hr3
    rw [← hpr]
    simp [rowOf]
  · rw [hex]
    decide

/-- Witness for C1: in the example, the tied rows for ids 2 and 3
(counts 9 and 9, insertion positions 1 and 2) appear in that order in
the sorted rows. -/
theorem C1_ranker_witness :
    [rowOf [(1, "A"), (2, "B"), (3, "C")]
        (([((1 : Int), (5 : Nat)), (2, 9), (3, 9), (4, 1)]).get ⟨1, by decide⟩),
     rowOf [(1, "A"), (2, "B"), (3, "C")]
        (([((1 : Int), (5 : Nat)), (2, 9), (3, 9), (4, 1)]).get ⟨2, by decide⟩)].Sublist
      (sortRows (buildRows [((1 : Int), (5 : Nat)), (2, 9), (3, 9), (4, 1)]
        [(1, "A"), (2, "B"), (3, "C")])) :=
  (C1_ranker [((1 : Int), (5 : Nat)), (2, 9), (3, 9), (4, 1)]
      [(1, "A"), (2, "B"), (3, "C")]).2.2.2.1
    ⟨1, by decide⟩ ⟨2, by decide⟩ (by decide) (by decide)

end MBTop
